import Mathlib

/-!
Shallow embedding of the `base-descriptor` library
(src/descriptor/data_descriptor.py and
src/descriptor/slottable_data_descriptor.py), together with theorems about
its descriptor protocol hooks.

Modelling conventions:
* Python values are modelled by the inductive `PyVal`.  The unique sentinel
  object `NO_DEFAULT` (data_descriptor.py line 35) is the constructor
  `PyVal.noDefault`; the Python identity test `x is NO_DEFAULT` becomes
  equality with that constructor.  A `Reference` namedtuple object
  (slottable_data_descriptor.py lines 35-44), when it occurs as an ordinary
  value (stored or passed as a default), is embedded by `PyVal.mkRef`.
* Python dicts are association lists with the usual replace-or-append
  assignment (`dset`), first-match lookup (`dget`) and key removal
  (`derase`).  An owning instance of the dict-based descriptors is
  identified with its `__dict__` (an `ObjDict`); the collection of live
  instances is a `World` keyed by instance id.
* Weak references are modelled by `Nat` tokens drawn from a counter
  (`SlotState.nextRef`); `weakref.ref(instance, callback)` allocates a fresh
  token.  The Python identity test `reference is weak_ref` becomes equality
  of tokens, which is faithful because each call allocates a fresh object.
* `__get__` receives `Option` instance: `none` models `instance is None`
  (access through the class).  Raised `AttributeError`s become
  `Except.error` with an `AttrError` describing the message of the source.
-/

inductive PyVal where
  | pyNone
  | pyInt (n : Int)
  | pyStr (s : String)
  | noDefault
  | mkRef (reference : Nat) (value : PyVal)
deriving DecidableEq, Repr

/-- Result of a `__get__` call: either the descriptor object itself
(returned when `instance is None`) or a value. -/
inductive GetResult where
  | self
  | val (v : PyVal)
deriving DecidableEq, Repr

/-- The `AttributeError`s raised by the library, by message:
"has not been set with a value", "is read only", "is not deletable". -/
inductive AttrError where
  | notSet
  | readOnly
  | notDeletable
deriving DecidableEq, Repr

deriving instance DecidableEq for Except

/-- Python dict lookup (`d[k]` / `d.get(k)`), first match. -/
def dget {κ : Type} [DecidableEq κ] {α : Type} : List (κ × α) → κ → Option α
  | [], _ => none
  | (k, a) :: rest, k0 => if k0 = k then some a else dget rest k0

/-- Python dict assignment `d[k] = v`: replace in place if the key is
present, else append. -/
def dset {κ : Type} [DecidableEq κ] {α : Type} : List (κ × α) → κ → α → List (κ × α)
  | [], k, v => [(k, v)]
  | (k0, a) :: rest, k, v =>
    if k = k0 then (k, v) :: rest else (k0, a) :: dset rest k v

/-- Python dict deletion `del d[k]` (dict keys are unique, so removing
every pair with key `k` is the same as removing the entry for `k`). -/
def derase {κ : Type} [DecidableEq κ] {α : Type} (l : List (κ × α)) (k : κ) : List (κ × α) :=
  l.filter (fun p => p.1 ≠ k)

def dkeys {κ : Type} {α : Type} (l : List (κ × α)) : List κ :=
  l.map Prod.fst

/-- The `__dict__` of an owning instance. -/
def ObjDict := List (String × PyVal)
deriving DecidableEq, Repr

/-- The heap of owning instances of the dict-based descriptors, keyed by
instance id: each instance has its own `__dict__`. -/
def World := List (Nat × ObjDict)
deriving DecidableEq, Repr

/-- `instance.__dict__` for the instance with id `oid` (a fresh instance has
an empty dict). -/
def worldDict (w : World) (oid : Nat) : ObjDict :=
  (dget w oid).getD []

/-- `ReadOnly.__get__` (data_descriptor.py lines 107-131):
`if instance is None: return self` then `return self._value`. -/
def ReadOnly.get (value : PyVal) (inst : Option Nat) : Except AttrError GetResult :=
  match inst with
  | none => .ok .self
  | some _ => .ok (.val value)

/-- `ReadOnly.__set__` (lines 133-149): unconditionally raises
`AttributeError(..., "is read only.")`. -/
def ReadOnly.set (_inst : Nat) (_v : PyVal) : Except AttrError Unit :=
  .error .readOnly

/-- `ReadOnly.__delete__` (lines 151-165): unconditionally raises
`AttributeError(..., "is not deletable.")`. -/
def ReadOnly.delete (_inst : Nat) : Except AttrError Unit :=
  .error .notDeletable

/-- `BaseDataDescriptor.__set__` (lines 203-213):
`instance.__dict__[self._property_name] = value`. -/
def BaseDataDescriptor.set (propertyName : String) (instanceDict : ObjDict)
    (value : PyVal) : ObjDict :=
  dset instanceDict propertyName value

/-- `BaseDataDescriptor.__get__` (lines 215-244): return `self` when
`instance is None`; else `instance.__dict__[name]`, turning the `KeyError`
of a missing key into `AttributeError(..., "has not been set with a value")`. -/
def BaseDataDescriptor.get (propertyName : String) (inst : Option ObjDict) :
    Except AttrError GetResult :=
  match inst with
  | none => .ok .self
  | some d =>
    match dget d propertyName with
    | some v => .ok (.val v)
    | none => .error .notSet

/-- `BaseDataDescriptor.__delete__` (lines 246-260): always raises. -/
def BaseDataDescriptor.delete (_inst : ObjDict) : Except AttrError Unit :=
  .error .notDeletable

/-- `DefaultDescriptor.__get__` (lines 290-321): return `self` when
`instance is None`; if `self.default is NO_DEFAULT` defer to
`BaseDataDescriptor.__get__`; else
`instance.__dict__.get(self._property_name, _default)`. -/
def DefaultDescriptor.get (propertyName : String) (default : PyVal)
    (inst : Option ObjDict) : Except AttrError GetResult :=
  match inst with
  | none => .ok .self
  | some d =>
    if default = .noDefault then
      BaseDataDescriptor.get propertyName (some d)
    else
      .ok (.val ((dget d propertyName).getD default))

/-- The `Reference` namedtuple (slottable_data_descriptor.py lines 35-44):
a weak reference together with the stored value. -/
structure Reference where
  reference : Nat
  value : PyVal
deriving DecidableEq, Repr

/-- State of a slottable descriptor: `_references : Dict[int, Reference]`
plus the weak-reference allocator (each `weakref.ref(...)` call yields a
fresh object; `nextRef` is the next fresh token). -/
structure SlotState where
  _references : List (Nat × Reference)
  nextRef : Nat
deriving DecidableEq, Repr

/-- `BaseSlottableDataDescriptor.__init__` (line 90-91): empty dict. -/
def slotInit : SlotState :=
  { _references := [], nextRef := 0 }

/-- `BaseSlottableDataDescriptor.__set__` (lines 104-117): allocate a weak
reference to the instance, build `Reference(_weak_ref, value)` and store it
under `id(instance)`. -/
def BaseSlottableDataDescriptor.set (s : SlotState) (instanceId : Nat)
    (value : PyVal) : SlotState :=
  { _references := dset s._references instanceId ⟨s.nextRef, value⟩,
    nextRef := s.nextRef + 1 }

/-- `BaseSlottableDataDescriptor.__get__` (lines 119-150): return `self`
when `instance is None`; else look up `id(instance)` and return the stored
`Reference`'s `value`, turning `KeyError` into the "has not been set"
`AttributeError`. -/
def BaseSlottableDataDescriptor.get (s : SlotState) (inst : Option Nat) :
    Except AttrError GetResult :=
  match inst with
  | none => .ok .self
  | some iid =>
    match dget s._references iid with
    | some r => .ok (.val r.value)
    | none => .error .notSet

/-- `BaseSlottableDataDescriptor.__delete__` (lines 152-155): always raises. -/
def BaseSlottableDataDescriptor.delete (_inst : Nat) : Except AttrError Unit :=
  .error .notDeletable

/-- `BaseSlottableDataDescriptor._find_weak_ref_key` (lines 157-170): linear
scan for the first entry whose `reference` is the fired weak reference;
falls off the loop returning `None` when there is no match. -/
def BaseSlottableDataDescriptor.findWeakRefKey :
    List (Nat × Reference) → Nat → Option Nat
  | [], _ => none
  | (key, r) :: rest, weakRef =>
    if r.reference = weakRef then some key
    else BaseSlottableDataDescriptor.findWeakRefKey rest weakRef

/-- `BaseSlottableDataDescriptor._delete_reference` (lines 172-181):
`key = self._find_weak_ref_key(weak_ref); if key: del self._references[key]`.
Note the Python truthiness test `if key:`: it is false both for `None`
(no match) and for the integer `0`. -/
def BaseSlottableDataDescriptor.deleteReference (s : SlotState) (weakRef : Nat) :
    SlotState :=
  match BaseSlottableDataDescriptor.findWeakRefKey s._references weakRef with
  | none => s
  | some key =>
    if key ≠ 0 then { s with _references := derase s._references key }
    else s

/-- `SlottableDefaultDescriptor.__get__` (lines 227-266): return `self` when
`instance is None`; if `self.default is NO_DEFAULT` defer to
`BaseSlottableDataDescriptor.__get__`; else take
`self._references.get(id(instance), _default)` and, if the result is a
`Reference` instance (`isinstance` check), return its `value` field, else
return it unchanged.  A stored record is always a `Reference`; a default
that is itself a `Reference` object also passes the `isinstance` check. -/
def SlottableDefaultDescriptor.get (default : PyVal) (s : SlotState)
    (inst : Option Nat) : Except AttrError GetResult :=
  match inst with
  | none => .ok .self
  | some iid =>
    if default = .noDefault then
      BaseSlottableDataDescriptor.get s (some iid)
    else
      match dget s._references iid with
      | some r => .ok (.val r.value)
      | none =>
        match default with
        | .mkRef _ v => .ok (.val v)
        | d => .ok (.val d)

/-! ### Operation machines

A run of the library is a sequence of attribute accesses.  `__get__` bodies
perform no mutation (they are lookups inside `try`/`except` only), so a get
step leaves the state unchanged; a set step runs the corresponding
`__set__`; for the slottable descriptors a cleanup step models the weakref
callback `_delete_reference` firing for a given weak reference. -/

inductive DictOp where
  | setOp (oid : Nat) (v : PyVal)
  | getOp (inst : Option Nat)
deriving DecidableEq, Repr

/-- `__set__` of the dict-based descriptors acting on the heap of
instances: mutate the target instance's `__dict__`. -/
def worldSet (propertyName : String) (w : World) (oid : Nat) (v : PyVal) : World :=
  dset w oid (BaseDataDescriptor.set propertyName (worldDict w oid) v)

def dictStep (propertyName : String) (w : World) : DictOp → World
  | .setOp oid v => worldSet propertyName w oid v
  | .getOp _ => w

def dictRun (propertyName : String) (w : World) : List DictOp → World
  | [] => w
  | op :: ops => dictRun propertyName (dictStep propertyName w op) ops

inductive SlotOp where
  | setOp (oid : Nat) (v : PyVal)
  | getOp (inst : Option Nat)
  | cleanupOp (weakRef : Nat)
deriving DecidableEq, Repr

def slotStep (s : SlotState) : SlotOp → SlotState
  | .setOp oid v => BaseSlottableDataDescriptor.set s oid v
  | .getOp _ => s
  | .cleanupOp w => BaseSlottableDataDescriptor.deleteReference s w

def slotRun (s : SlotState) : List SlotOp → SlotState
  | [] => s
  | op :: ops => slotRun (slotStep s op) ops

/-- A dict-machine op that writes owner `oid`. -/
def DictOp.writesTo (oid : Nat) : DictOp → Bool
  | .setOp o _ => o == oid
  | .getOp _ => false

/-- A slot-machine op that writes owner `oid` or destroys it (fires the
weak reference `tok` recorded for it). -/
def SlotOp.touches (oid tok : Nat) : SlotOp → Bool
  | .setOp o _ => o == oid
  | .getOp _ => false
  | .cleanupOp w => w == tok

def DictOp.isGet : DictOp → Bool
  | .getOp _ => true
  | _ => false

def SlotOp.isGet : SlotOp → Bool
  | .getOp _ => true
  | _ => false

/-! ### Association-list lemmas -/

theorem dget_dset_self {κ : Type} [DecidableEq κ] {α : Type}
    (l : List (κ × α)) (k : κ) (v : α) : dget (dset l k v) k = some v := by
  induction l with
  | nil => simp [dget, dset]
  | cons p rest ih =>
    obtain ⟨k0, a⟩ := p
    by_cases h : k = k0
    · simp [dset, dget, h]
    · simp [dset, dget, h, ih]

theorem dget_dset_ne {κ : Type} [DecidableEq κ] {α : Type}
    (l : List (κ × α)) (k k1 : κ) (v : α) (h : k1 ≠ k) :
    dget (dset l k v) k1 = dget l k1 := by
  induction l with
  | nil => simp [dget, dset, h]
  | cons p rest ih =>
    obtain ⟨k0, a⟩ := p
    by_cases hk : k = k0
    · subst hk
      simp [dset, dget, h]
    · by_cases hk1 : k1 = k0
      · simp [dset, dget, hk, hk1]
      · simp [dset, dget, hk, hk1, ih]

theorem mem_dkeys_of_dget {κ : Type} [DecidableEq κ] {α : Type}
    {l : List (κ × α)} {k : κ} {v : α} (h : dget l k = some v) :
    k ∈ dkeys l := by
  induction l with
  | nil => simp [dget] at h
  | cons p rest ih =>
    obtain ⟨k0, a⟩ := p
    by_cases hk : k = k0
    · simp [dkeys, hk]
    · simp [dget, hk] at h
      simp [dkeys] at ih ⊢
      exact Or.inr (ih h)

theorem dget_eq_none_of_not_mem {κ : Type} [DecidableEq κ] {α : Type}
    {l : List (κ × α)} {k : κ} (h : k ∉ dkeys l) : dget l k = none := by
  cases hd : dget l k with
  | none => rfl
  | some v => exact absurd (mem_dkeys_of_dget hd) h

theorem dkeys_dset_mem {κ : Type} [DecidableEq κ] {α : Type}
    (l : List (κ × α)) (k : κ) (v : α) (h : k ∈ dkeys l) :
    dkeys (dset l k v) = dkeys l := by
  induction l with
  | nil => simp [dkeys] at h
  | cons p rest ih =>
    obtain ⟨k0, a⟩ := p
    by_cases hk : k = k0
    · simp [dset, dkeys, hk]
    · rcases List.mem_cons.mp (show k ∈ k0 :: dkeys rest from h) with h1 | h1
      · exact absurd h1 hk
      · simp only [dset, dkeys, hk, if_false, List.map_cons]
        exact congrArg (_ :: ·) (ih h1)

theorem dkeys_dset_not_mem {κ : Type} [DecidableEq κ] {α : Type}
    (l : List (κ × α)) (k : κ) (v : α) (h : k ∉ dkeys l) :
    dkeys (dset l k v) = dkeys l ++ [k] := by
  induction l with
  | nil => simp [dset, dkeys]
  | cons p rest ih =>
    obtain ⟨k0, a⟩ := p
    have hne : k ≠ k0 := fun hc => h (by simp [dkeys, hc])
    have hrest : k ∉ dkeys rest :=
      fun hc => h (show k ∈ k0 :: dkeys rest from List.mem_cons_of_mem k0 hc)
    simp only [dset, dkeys, List.map_cons, List.cons_append]
    rw [if_neg hne]
    exact congrArg (_ :: ·) (ih hrest)

theorem nodup_dkeys_dset {κ : Type} [DecidableEq κ] {α : Type}
    (l : List (κ × α)) (k : κ) (v : α) (h : (dkeys l).Nodup) :
    (dkeys (dset l k v)).Nodup := by
  by_cases hm : k ∈ dkeys l
  · rw [dkeys_dset_mem l k v hm]; exact h
  · rw [dkeys_dset_not_mem l k v hm]
    simpa [List.nodup_append] using ⟨h, hm⟩

theorem dget_derase_self {κ : Type} [DecidableEq κ] {α : Type}
    (l : List (κ × α)) (k : κ) : dget (derase l k) k = none := by
  induction l with
  | nil => simp [derase, dget]
  | cons p rest ih =>
    obtain ⟨k0, a⟩ := p
    by_cases hk : k0 = k
    · simpa [derase, hk] using ih
    · have hne : k ≠ k0 := fun hc => hk hc.symm
      simpa [derase, dget, hk, hne] using ih

theorem dget_derase_ne {κ : Type} [DecidableEq κ] {α : Type}
    (l : List (κ × α)) (k k1 : κ) (h : k1 ≠ k) :
    dget (derase l k) k1 = dget l k1 := by
  induction l with
  | nil => simp [derase]
  | cons p rest ih =>
    obtain ⟨k0, a⟩ := p
    by_cases hk : k0 = k
    · subst hk
      have hne : k1 ≠ k0 := h
      simp [derase, dget, hne] at ih ⊢
      exact ih
    · by_cases hk1 : k1 = k0
      · simp [derase, dget, hk, hk1]
      · simp [derase, dget, hk, hk1] at ih ⊢
        exact ih

theorem dkeys_derase_sublist {κ : Type} [DecidableEq κ] {α : Type}
    (l : List (κ × α)) (k : κ) :
    (dkeys (derase l k)).Sublist (dkeys l) := by
  simpa [dkeys, derase] using (List.filter_sublist l).map Prod.fst

theorem nodup_dkeys_derase {κ : Type} [DecidableEq κ] {α : Type}
    (l : List (κ × α)) (k : κ) (h : (dkeys l).Nodup) :
    (dkeys (derase l k)).Nodup :=
  (dkeys_derase_sublist l k).nodup h

/-- A key found by `_find_weak_ref_key` is bound (under unique dict keys)
to an entry carrying exactly the sought weak reference. -/
theorem findWeakRefKey_spec (refs : List (Nat × Reference)) (w k : Nat)
    (hnd : (dkeys refs).Nodup)
    (h : BaseSlottableDataDescriptor.findWeakRefKey refs w = some k) :
    ∃ r : Reference, dget refs k = some r ∧ r.reference = w := by
  induction refs with
  | nil => simp [BaseSlottableDataDescriptor.findWeakRefKey] at h
  | cons p rest ih =>
    obtain ⟨k0, r0⟩ := p
    by_cases hw : r0.reference = w
    · simp [BaseSlottableDataDescriptor.findWeakRefKey, hw] at h
      subst h
      exact ⟨r0, by simp [dget], hw⟩
    · simp [BaseSlottableDataDescriptor.findWeakRefKey, hw] at h
      have hnd2 : (dkeys rest).Nodup := (List.nodup_cons.mp hnd).2
      obtain ⟨r, hr, hrw⟩ := ih hnd2 h
      have hkmem : k ∈ dkeys rest := mem_dkeys_of_dget hr
      have hk0 : k ≠ k0 := by
        intro hc
        exact (List.nodup_cons.mp hnd).1 (hc ▸ hkmem)
      exact ⟨r, by simp [dget, hk0, hr], hrw⟩

theorem mem_of_dget {κ : Type} [DecidableEq κ] {α : Type}
    {l : List (κ × α)} {k : κ} {a : α} (h : dget l k = some a) : (k, a) ∈ l := by
  induction l with
  | nil => simp [dget] at h
  | cons p rest ih =>
    obtain ⟨k0, a0⟩ := p
    by_cases hk : k = k0
    · subst hk
      simp [dget] at h
      simp [h]
    · simp [dget, hk] at h
      exact List.mem_cons_of_mem _ (ih h)

/-- When the weak-reference tokens in the map are pairwise distinct,
`_find_weak_ref_key` run on the token recorded for key `k` finds `k`. -/
theorem findWeakRefKey_of_dget (refs : List (Nat × Reference)) (k : Nat)
    (r : Reference)
    (hnd : (refs.map (fun p => p.2.reference)).Nodup)
    (h : dget refs k = some r) :
    BaseSlottableDataDescriptor.findWeakRefKey refs r.reference = some k := by
  induction refs with
  | nil => simp [dget] at h
  | cons p rest ih =>
    obtain ⟨k0, r0⟩ := p
    by_cases hk : k = k0
    · subst hk
      simp [dget] at h
      subst h
      simp [BaseSlottableDataDescriptor.findWeakRefKey]
    · simp [dget, hk] at h
      have hmem : r.reference ∈ rest.map (fun p => p.2.reference) :=
        List.mem_map.mpr ⟨(k, r), mem_of_dget h, rfl⟩
      have hne : ¬ r0.reference = r.reference := by
        intro hc
        exact (List.nodup_cons.mp hnd).1 (by
          have := hmem
          rw [← hc] at this
          exact this)
      simp [BaseSlottableDataDescriptor.findWeakRefKey, hne,
        ih (List.nodup_cons.mp hnd).2 h]

/-- `_find_weak_ref_key` returns `None` when no entry carries the fired
weak reference (the loop falls through). -/
theorem findWeakRefKey_none (refs : List (Nat × Reference)) (w : Nat)
    (h : ∀ p ∈ refs, p.2.reference ≠ w) :
    BaseSlottableDataDescriptor.findWeakRefKey refs w = none := by
  induction refs with
  | nil => rfl
  | cons p rest ih =>
    obtain ⟨k0, r0⟩ := p
    have h0 : r0.reference ≠ w := h (k0, r0) (List.mem_cons_self _ _)
    simp [BaseSlottableDataDescriptor.findWeakRefKey, h0]
    exact ih (fun q hq => h q (List.mem_cons_of_mem _ hq))

/-! ### Invariants of the slottable descriptor state -/

/-- Keys of `_references` are unique (the Python dict invariant). -/
abbrev SlotKeysOk (s : SlotState) : Prop :=
  (dkeys s._references).Nodup

/-- The weak references stored in `_references` are pairwise distinct
objects (each `__set__` allocates a fresh one). -/
abbrev SlotTokensOk (s : SlotState) : Prop :=
  (s._references.map (fun p => p.2.reference)).Nodup

/-- Every stored weak reference was allocated before `nextRef`. -/
abbrev SlotTokensBounded (s : SlotState) : Prop :=
  ∀ p ∈ s._references, p.2.reference < s.nextRef

abbrev SlotWF (s : SlotState) : Prop :=
  SlotKeysOk s ∧ SlotTokensOk s ∧ SlotTokensBounded s

theorem mem_dset_cases {κ : Type} [DecidableEq κ] {α : Type}
    {l : List (κ × α)} {k : κ} {v : α} {p : κ × α} (h : p ∈ dset l k v) :
    p ∈ l ∨ p = (k, v) := by
  induction l with
  | nil => simpa [dset] using h
  | cons q rest ih =>
    obtain ⟨k0, a0⟩ := q
    by_cases hk : k = k0
    · subst hk
      simp only [dset, if_pos rfl] at h
      rcases List.mem_cons.mp h with h | h
      · exact Or.inr h
      · exact Or.inl (List.mem_cons_of_mem _ h)
    · simp only [dset, if_neg hk] at h
      rcases List.mem_cons.mp h with h | h
      · exact Or.inl (by simp [h])
      · rcases ih h with h1 | h1
        · exact Or.inl (List.mem_cons_of_mem _ h1)
        · exact Or.inr h1

theorem tokens_nodup_dset (l : List (Nat × Reference)) (k n : Nat) (v : PyVal)
    (hnd : (l.map (fun p => p.2.reference)).Nodup)
    (hb : ∀ p ∈ l, p.2.reference < n) :
    ((dset l k ⟨n, v⟩).map (fun p => p.2.reference)).Nodup := by
  induction l with
  | nil => simp [dset]
  | cons q rest ih =>
    obtain ⟨k0, r0⟩ := q
    by_cases hk : k = k0
    · rw [show dset ((k0, r0) :: rest) k ⟨n, v⟩ = (k, ⟨n, v⟩) :: rest from by
        simp [dset, hk]]
      rw [List.map_cons, List.nodup_cons]
      refine ⟨?_, (List.nodup_cons.mp hnd).2⟩
      intro hc
      rcases List.mem_map.mp hc with ⟨p, hp, hpr⟩
      have := hb p (List.mem_cons_of_mem _ hp)
      simp at hpr
      omega
    · simp only [dset, if_neg hk, List.map_cons, List.nodup_cons]
      refine ⟨?_, ?_⟩
      · intro hc
        rcases List.mem_map.mp hc with ⟨p, hp, hpr⟩
        rcases mem_dset_cases hp with h1 | h1
        · exact (List.nodup_cons.mp hnd).1
            (List.mem_map.mpr ⟨p, h1, hpr⟩)
        · have hlt : r0.reference < n := hb _ (List.mem_cons_self _ _)
          rw [h1] at hpr
          simp at hpr
          omega
      · exact ih (List.nodup_cons.mp hnd).2
          (fun p hp => hb p (List.mem_cons_of_mem _ hp))

theorem slotWF_init : SlotWF slotInit :=
  ⟨List.nodup_nil, List.nodup_nil, fun p hp => absurd hp (List.not_mem_nil p)⟩

theorem slotWF_step (s : SlotState) (op : SlotOp) (h : SlotWF s) :
    SlotWF (slotStep s op) := by
  obtain ⟨hkeys, htok, hb⟩ := h
  cases op with
  | setOp oid v =>
    refine ⟨?_, ?_, ?_⟩
    · exact nodup_dkeys_dset _ _ _ hkeys
    · exact tokens_nodup_dset _ _ _ _ htok hb
    · intro p hp
      rcases mem_dset_cases hp with h1 | h1
      · exact Nat.lt_succ_of_lt (hb p h1)
      · rw [h1]
        exact Nat.lt_succ_self _
  | getOp i => exact ⟨hkeys, htok, hb⟩
  | cleanupOp w =>
    show SlotWF (BaseSlottableDataDescriptor.deleteReference s w)
    unfold BaseSlottableDataDescriptor.deleteReference
    cases hf : BaseSlottableDataDescriptor.findWeakRefKey s._references w with
    | none => exact ⟨hkeys, htok, hb⟩
    | some key =>
      show SlotWF
        (if key ≠ 0 then { s with _references := derase s._references key } else s)
      by_cases hz : key = 0
      · rw [if_neg (fun hc => hc hz)]
        exact ⟨hkeys, htok, hb⟩
      · rw [if_pos hz]
        refine ⟨nodup_dkeys_derase _ _ hkeys, ?_, ?_⟩
        · exact ((List.filter_sublist _).map _).nodup htok
        · intro p hp
          have hp2 : p ∈ derase s._references key := hp
          exact hb p (List.mem_of_mem_filter hp2)

theorem slotWF_run (s : SlotState) (ops : List SlotOp) (h : SlotWF s) :
    SlotWF (slotRun s ops) := by
  induction ops generalizing s with
  | nil => exact h
  | cons op rest ih => exact ih _ (slotWF_step s op h)

theorem slotKeysOk_step (s : SlotState) (op : SlotOp) (h : SlotKeysOk s) :
    SlotKeysOk (slotStep s op) := by
  cases op with
  | setOp oid v => exact nodup_dkeys_dset _ _ _ h
  | getOp i => exact h
  | cleanupOp w =>
    show SlotKeysOk (BaseSlottableDataDescriptor.deleteReference s w)
    unfold BaseSlottableDataDescriptor.deleteReference
    cases BaseSlottableDataDescriptor.findWeakRefKey s._references w with
    | none => exact h
    | some key =>
      show SlotKeysOk
        (if key ≠ 0 then { s with _references := derase s._references key } else s)
      by_cases hz : key = 0
      · rw [if_neg (fun hc => hc hz)]
        exact h
      · rw [if_pos hz]
        exact nodup_dkeys_derase _ _ h

/-- One step that neither writes owner `oid` nor fires its recorded weak
reference `tok` preserves the owner's stored record. -/
theorem slot_stable_step (s : SlotState) (op : SlotOp) (oid tok : Nat) (v : PyVal)
    (hkeys : SlotKeysOk s)
    (hget : dget s._references oid = some ⟨tok, v⟩)
    (hop : SlotOp.touches oid tok op = false) :
    dget (slotStep s op)._references oid = some ⟨tok, v⟩ := by
  cases op with
  | setOp o u =>
    have hne : ¬ o = oid := by simpa [SlotOp.touches] using hop
    show dget (dset s._references o ⟨s.nextRef, u⟩) oid = some ⟨tok, v⟩
    rw [dget_dset_ne _ o oid _ (fun hc => hne hc.symm)]
    exact hget
  | getOp i => exact hget
  | cleanupOp w =>
    have hwne : ¬ w = tok := by simpa [SlotOp.touches] using hop
    show dget (BaseSlottableDataDescriptor.deleteReference s w)._references oid
      = some ⟨tok, v⟩
    unfold BaseSlottableDataDescriptor.deleteReference
    cases hf : BaseSlottableDataDescriptor.findWeakRefKey s._references w with
    | none => exact hget
    | some key =>
      show dget
        (if key ≠ 0 then { s with _references := derase s._references key }
          else s)._references oid = some ⟨tok, v⟩
      by_cases hz : key = 0
      · rw [if_neg (fun hc => hc hz)]
        exact hget
      · rw [if_pos hz]
        have hne : oid ≠ key := by
          intro hc
          obtain ⟨r, hr, hrw⟩ := findWeakRefKey_spec s._references w key hkeys hf
          rw [← hc, hget] at hr
          injection hr with hr2
          rw [← hr2] at hrw
          exact hwne ((by simpa using hrw) : tok = w).symm
        show dget (derase s._references key) oid = some ⟨tok, v⟩
        rw [dget_derase_ne _ key oid hne]
        exact hget

theorem slot_stable_run (ops : List SlotOp) (s : SlotState) (oid tok : Nat) (v : PyVal)
    (hkeys : SlotKeysOk s)
    (hget : dget s._references oid = some ⟨tok, v⟩)
    (hops : ∀ op ∈ ops, SlotOp.touches oid tok op = false) :
    dget (slotRun s ops)._references oid = some ⟨tok, v⟩ := by
  induction ops generalizing s with
  | nil => exact hget
  | cons op rest ih =>
    exact ih (slotStep s op) (slotKeysOk_step s op hkeys)
      (slot_stable_step s op oid tok v hkeys hget (hops op (List.mem_cons_self _ _)))
      (fun q hq => hops q (List.mem_cons_of_mem _ hq))

theorem world_stable_step (name : String) (w : World) (op : DictOp) (oid : Nat)
    (v : PyVal)
    (hget : dget (worldDict w oid) name = some v)
    (hop : DictOp.writesTo oid op = false) :
    dget (worldDict (dictStep name w op) oid) name = some v := by
  cases op with
  | setOp o u =>
    have hne : ¬ o = oid := by simpa [DictOp.writesTo] using hop
    show dget (worldDict (worldSet name w o u) oid) name = some v
    unfold worldSet worldDict
    rw [dget_dset_ne _ o oid _ (fun hc => hne hc.symm)]
    exact hget
  | getOp i => exact hget

theorem world_stable_run (name : String) (ops : List DictOp) (w : World) (oid : Nat)
    (v : PyVal)
    (hget : dget (worldDict w oid) name = some v)
    (hops : ∀ op ∈ ops, DictOp.writesTo oid op = false) :
    dget (worldDict (dictRun name w ops) oid) name = some v := by
  induction ops generalizing w with
  | nil => exact hget
  | cons op rest ih =>
    exact ih (dictStep name w op)
      (world_stable_step name w op oid v hget (hops op (List.mem_cons_self _ _)))
      (fun q hq => hops q (List.mem_cons_of_mem _ hq))

/-! ### Claim theorems -/

theorem worldDict_worldSet_self (name : String) (w : World) (oid : Nat) (v : PyVal) :
    dget (worldDict (worldSet name w oid v) oid) name = some v := by
  unfold worldSet worldDict BaseDataDescriptor.set
  rw [dget_dset_self]
  simp [dget_dset_self]

/-- C1: for every hook type implementing both write and read
(`BaseDataDescriptor`, `DefaultDescriptor`, `BaseSlottableDataDescriptor`,
`SlottableDefaultDescriptor`) and every owning object `oid` and value `v`:
after `write(oid, v)`, `read(oid)` returns `v`, and keeps returning `v`
across any further operations that are neither a write for `oid` nor
`oid`'s destruction (reads mutate nothing, writes for other owners touch
other entries, and — for the slottable family — cleanups fired for other
owners' weak references remove only their entries). -/
theorem c1_write_then_read_stable (name : String) (w : World) (s : SlotState)
    (oid : Nat) (v d : PyVal) (dops : List DictOp) (ops : List SlotOp)
    (hdops : ∀ op ∈ dops, DictOp.writesTo oid op = false)
    (hkeys : SlotKeysOk s)
    (hops : ∀ op ∈ ops, SlotOp.touches oid s.nextRef op = false) :
    BaseDataDescriptor.get name
        (some (worldDict (dictRun name (worldSet name w oid v) dops) oid))
      = .ok (.val v) ∧
    DefaultDescriptor.get name d
        (some (worldDict (dictRun name (worldSet name w oid v) dops) oid))
      = .ok (.val v) ∧
    BaseSlottableDataDescriptor.get
        (slotRun (BaseSlottableDataDescriptor.set s oid v) ops) (some oid)
      = .ok (.val v) ∧
    SlottableDefaultDescriptor.get d
        (slotRun (BaseSlottableDataDescriptor.set s oid v) ops) (some oid)
      = .ok (.val v) := by
  have hw : dget (worldDict (dictRun name (worldSet name w oid v) dops) oid) name
      = some v :=
    world_stable_run name dops (worldSet name w oid v) oid v
      (worldDict_worldSet_self name w oid v) hdops
  have hset : dget (BaseSlottableDataDescriptor.set s oid v)._references oid
      = some ⟨s.nextRef, v⟩ := dget_dset_self _ _ _
  have hkeys2 : SlotKeysOk (BaseSlottableDataDescriptor.set s oid v) :=
    nodup_dkeys_dset _ _ _ hkeys
  have hs : dget (slotRun (BaseSlottableDataDescriptor.set s oid v) ops)._references oid
      = some ⟨s.nextRef, v⟩ :=
    slot_stable_run ops (BaseSlottableDataDescriptor.set s oid v) oid s.nextRef v
      hkeys2 hset hops
  refine ⟨?_, ?_, ?_, ?_⟩
  · simp [BaseDataDescriptor.get, hw]
  · by_cases hd : d = PyVal.noDefault <;>
      simp [DefaultDescriptor.get, BaseDataDescriptor.get, hd, hw]
  · simp [BaseSlottableDataDescriptor.get, hs]
  · by_cases hd : d = PyVal.noDefault <;>
      simp [SlottableDefaultDescriptor.get, BaseSlottableDataDescriptor.get, hd, hs]

def sampleDictOps : List DictOp :=
  [.setOp 2 (.pyInt 7), .getOp (some 1), .getOp none]

def sampleSlotOps : List SlotOp :=
  [.setOp 2 (.pyInt 7), .getOp (some 1), .cleanupOp 5]

theorem c1_write_then_read_stable_witness :
    (∀ op ∈ sampleDictOps, DictOp.writesTo 1 op = false) ∧
    SlotKeysOk slotInit ∧
    (∀ op ∈ sampleSlotOps, SlotOp.touches 1 slotInit.nextRef op = false) ∧
    (BaseDataDescriptor.get "bar"
        (some (worldDict
          (dictRun "bar" (worldSet "bar" [] 1 (.pyInt 3)) sampleDictOps) 1))
      = .ok (.val (.pyInt 3)) ∧
    DefaultDescriptor.get "bar" (.pyInt 9)
        (some (worldDict
          (dictRun "bar" (worldSet "bar" [] 1 (.pyInt 3)) sampleDictOps) 1))
      = .ok (.val (.pyInt 3)) ∧
    BaseSlottableDataDescriptor.get
        (slotRun (BaseSlottableDataDescriptor.set slotInit 1 (.pyInt 3))
          sampleSlotOps) (some 1)
      = .ok (.val (.pyInt 3)) ∧
    SlottableDefaultDescriptor.get (.pyInt 9)
        (slotRun (BaseSlottableDataDescriptor.set slotInit 1 (.pyInt 3))
          sampleSlotOps) (some 1)
      = .ok (.val (.pyInt 3))) :=
  ⟨by decide, by decide, by decide,
    c1_write_then_read_stable "bar" [] slotInit 1 (.pyInt 3) (.pyInt 9)
      sampleDictOps sampleSlotOps (by decide) (by decide) (by decide)⟩

/-- C2: for every hook with no configured default (`BaseDataDescriptor`,
`BaseSlottableDataDescriptor`, and both default variants constructed
without a default, i.e. with the `NO_DEFAULT` sentinel), reading through an
owning object that has never been written (its storage holds no entry for
the attribute) fails with the "has not been set" `AttributeError`; it never
returns a placeholder value. -/
theorem c2_read_before_write_fails (name : String) (d : ObjDict) (s : SlotState)
    (oid : Nat) (hd : dget d name = none) (hs : dget s._references oid = none) :
    BaseDataDescriptor.get name (some d) = .error .notSet ∧
    DefaultDescriptor.get name .noDefault (some d) = .error .notSet ∧
    BaseSlottableDataDescriptor.get s (some oid) = .error .notSet ∧
    SlottableDefaultDescriptor.get .noDefault s (some oid) = .error .notSet := by
  refine ⟨?_, ?_, ?_, ?_⟩ <;>
    simp [BaseDataDescriptor.get, DefaultDescriptor.get,
      BaseSlottableDataDescriptor.get, SlottableDefaultDescriptor.get, hd, hs]

theorem c2_read_before_write_fails_witness :
    dget ([] : ObjDict) "bar" = none ∧ dget slotInit._references 0 = none ∧
    (BaseDataDescriptor.get "bar" (some []) = .error .notSet ∧
    DefaultDescriptor.get "bar" .noDefault (some []) = .error .notSet ∧
    BaseSlottableDataDescriptor.get slotInit (some 0) = .error .notSet ∧
    SlottableDefaultDescriptor.get .noDefault slotInit (some 0) = .error .notSet) :=
  ⟨by decide, by decide,
    c2_read_before_write_fails "bar" [] slotInit 0 (by decide) (by decide)⟩

/-- C3 counterexample: `SlottableDefaultDescriptor` constructed with a
default that is itself a `Reference` record (a value other than the
`NO_DEFAULT` sentinel).  Reading through a never-written owner does not
return the default: the `isinstance(_value_or_reference, Reference)` test
in `__get__` also matches the default itself, so its `value` field is
returned instead. -/
theorem c3_counterexample_reference_default :
    SlottableDefaultDescriptor.get (PyVal.mkRef 0 PyVal.pyNone) slotInit (some 1)
      ≠ .ok (.val (PyVal.mkRef 0 PyVal.pyNone)) := by decide

/-- The value `SlottableDefaultDescriptor.__get__` produces for an unset
owner: the default itself, except that a default which is a `Reference`
record yields its `value` field. -/
def referencePayload : PyVal → PyVal
  | .mkRef _ v => v
  | d => d

/-- C3 (amended): for the default-value variants constructed with a default
`d` other than the `NO_DEFAULT` sentinel, for every owning object: read
before any write returns `d` — except that the slottable variant, when `d`
is itself a `Reference` record, returns that record's `value` field — read
after a write returns the written value, and read never fails. -/
theorem c3_amended_default_reads (name : String) (d : PyVal) (dict : ObjDict)
    (s : SlotState) (oid : Nat) (v : PyVal) (hd : d ≠ .noDefault) :
    (dget dict name = none →
      DefaultDescriptor.get name d (some dict) = .ok (.val d)) ∧
    DefaultDescriptor.get name d (some (BaseDataDescriptor.set name dict v))
      = .ok (.val v) ∧
    (∃ r, DefaultDescriptor.get name d (some dict) = .ok r) ∧
    (dget s._references oid = none →
      SlottableDefaultDescriptor.get d s (some oid)
        = .ok (.val (referencePayload d))) ∧
    SlottableDefaultDescriptor.get d
        (BaseSlottableDataDescriptor.set s oid v) (some oid) = .ok (.val v) ∧
    (∃ r, SlottableDefaultDescriptor.get d s (some oid) = .ok r) := by
  refine ⟨?_, ?_, ?_, ?_, ?_, ?_⟩
  · intro h
    simp [DefaultDescriptor.get, hd, h]
  · simp [DefaultDescriptor.get, BaseDataDescriptor.set, hd, dget_dset_self]
  · cases hg : dget dict name with
    | none => exact ⟨.val d, by simp [DefaultDescriptor.get, hd, hg]⟩
    | some u => exact ⟨.val u, by simp [DefaultDescriptor.get, hd, hg]⟩
  · intro h
    cases d <;> simp_all [SlottableDefaultDescriptor.get, referencePayload]
  · simp [SlottableDefaultDescriptor.get, BaseSlottableDataDescriptor.set, hd,
      dget_dset_self]
  · cases hg : dget s._references oid with
    | none =>
      cases d <;> simp_all [SlottableDefaultDescriptor.get]
    | some r => exact ⟨.val r.value, by simp [SlottableDefaultDescriptor.get, hd, hg]⟩

theorem c3_amended_default_reads_witness :
    (PyVal.pyInt 1 : PyVal) ≠ .noDefault ∧
    (dget ([] : ObjDict) "bar" = none ∧
    dget slotInit._references 2 = none ∧
    DefaultDescriptor.get "bar" (.pyInt 1) (some []) = .ok (.val (.pyInt 1)) ∧
    SlottableDefaultDescriptor.get (.pyInt 1) slotInit (some 2)
      = .ok (.val (referencePayload (.pyInt 1)))) :=
  ⟨by decide, by decide, by decide,
    (c3_amended_default_reads "bar" (.pyInt 1) [] slotInit 2 (.pyInt 8)
      (by decide)).1 (by decide),
    (c3_amended_default_reads "bar" (.pyInt 1) [] slotInit 2 (.pyInt 8)
      (by decide)).2.2.2.1 (by decide)⟩

/-- C4: the `ReadOnly` hook constructed with value `v` returns `v` on read
through any owning object, and raises "read only" on any write and
"not deletable" on any delete. -/
theorem c4_read_only_behaviour (v : PyVal) (oid : Nat) (x : PyVal) :
    ReadOnly.get v (some oid) = .ok (.val v) ∧
    ReadOnly.set oid x = .error .readOnly ∧
    ReadOnly.delete oid = .error .notDeletable :=
  ⟨rfl, rfl, rfl⟩

/-- C5: for the auxiliary-storage hook, when the weak reference recorded for
a (destroyed) owning object fires, `_delete_reference` removes exactly that
owner's entry and leaves every other owner's entry unchanged and readable.
The hypotheses are the weakref invariant the code maintains
(pairwise-distinct weak references) plus `k ≠ 0`: CPython object ids
are object addresses and hence never `0`, which matters because
`_delete_reference` guards the removal with the truthiness test `if key:`. -/
theorem c5_cleanup_removes_exactly_fired (s : SlotState) (k : Nat) (r : Reference)
    (htok : SlotTokensOk s)
    (hget : dget s._references k = some r) (hk : k ≠ 0) :
    dget (BaseSlottableDataDescriptor.deleteReference s r.reference)._references k
      = none ∧
    (∀ k2, k2 ≠ k →
      dget (BaseSlottableDataDescriptor.deleteReference s r.reference)._references k2
        = dget s._references k2) ∧
    (∀ k2 r2, k2 ≠ k → dget s._references k2 = some r2 →
      BaseSlottableDataDescriptor.get
        (BaseSlottableDataDescriptor.deleteReference s r.reference) (some k2)
        = .ok (.val r2.value)) := by
  have hf : BaseSlottableDataDescriptor.findWeakRefKey s._references r.reference
      = some k := findWeakRefKey_of_dget s._references k r htok hget
  have hrefs : (BaseSlottableDataDescriptor.deleteReference s r.reference)._references
      = derase s._references k := by
    unfold BaseSlottableDataDescriptor.deleteReference
    rw [hf]
    show (if k ≠ 0 then { s with _references := derase s._references k }
      else s)._references = derase s._references k
    rw [if_pos hk]
  refine ⟨?_, ?_, ?_⟩
  · rw [hrefs]
    exact dget_derase_self _ _
  · intro k2 hne
    rw [hrefs]
    exact dget_derase_ne _ _ _ hne
  · intro k2 r2 hne hg2
    simp [BaseSlottableDataDescriptor.get, hrefs, dget_derase_ne _ _ _ hne, hg2]

def sampleSlotState : SlotState :=
  BaseSlottableDataDescriptor.set
    (BaseSlottableDataDescriptor.set slotInit 1 (.pyInt 4)) 2 (.pyInt 5)

theorem c5_cleanup_removes_exactly_fired_witness :
    SlotTokensOk sampleSlotState ∧
    dget sampleSlotState._references 2 = some ⟨1, .pyInt 5⟩ ∧ (2 : Nat) ≠ 0 ∧
    (dget (BaseSlottableDataDescriptor.deleteReference sampleSlotState
        (Reference.mk 1 (.pyInt 5)).reference)._references 2 = none ∧
    dget (BaseSlottableDataDescriptor.deleteReference sampleSlotState
        (Reference.mk 1 (.pyInt 5)).reference)._references 1
      = dget sampleSlotState._references 1 ∧
    BaseSlottableDataDescriptor.get
        (BaseSlottableDataDescriptor.deleteReference sampleSlotState
          (Reference.mk 1 (.pyInt 5)).reference) (some 1)
      = .ok (.val (.pyInt 4))) := by
  have h := c5_cleanup_removes_exactly_fired sampleSlotState 2 ⟨1, .pyInt 5⟩
    (by decide) (by decide) (by decide)
  exact ⟨by decide, by decide, by decide,
    h.1, h.2.1 1 (by decide),
    by
      have := h.2.2 1 ⟨0, .pyInt 4⟩ (by decide) (by decide)
      simpa using this⟩

/-- C6: invariant of the auxiliary-storage hook: after any sequence of
writes and cleanup invocations starting from the initial state, the
`_references` mapping has pairwise-distinct keys (at most one record per
owner id); and re-writing an existing owner replaces its record — the key
set is unchanged and the owner's entry becomes the new record carrying the
freshly installed observer. -/
theorem c6_at_most_one_record (ops : List SlotOp) (s : SlotState) (oid : Nat)
    (v : PyVal) (hmem : oid ∈ dkeys s._references) :
    SlotKeysOk (slotRun slotInit ops) ∧
    dkeys (BaseSlottableDataDescriptor.set s oid v)._references
      = dkeys s._references ∧
    dget (BaseSlottableDataDescriptor.set s oid v)._references oid
      = some ⟨s.nextRef, v⟩ :=
  ⟨(slotWF_run slotInit ops slotWF_init).1,
    dkeys_dset_mem _ _ _ hmem,
    dget_dset_self _ _ _⟩

theorem c6_at_most_one_record_witness :
    (1 : Nat) ∈ dkeys sampleSlotState._references ∧
    (SlotKeysOk (slotRun slotInit sampleSlotOps) ∧
    dkeys (BaseSlottableDataDescriptor.set sampleSlotState 1 (.pyInt 6))._references
      = dkeys sampleSlotState._references ∧
    dget (BaseSlottableDataDescriptor.set sampleSlotState 1 (.pyInt 6))._references 1
      = some ⟨sampleSlotState.nextRef, .pyInt 6⟩) :=
  ⟨by decide, c6_at_most_one_record sampleSlotOps sampleSlotState 1 (.pyInt 6)
    (by decide)⟩

/-- C7: accessing any hook through the owning class itself (`instance is
None`) returns the hook object, for every variant, regardless of stored
values or configured default. -/
theorem c7_class_access_returns_descriptor (v d : PyVal) (name : String)
    (s : SlotState) :
    ReadOnly.get v none = .ok .self ∧
    BaseDataDescriptor.get name none = .ok .self ∧
    DefaultDescriptor.get name d none = .ok .self ∧
    BaseSlottableDataDescriptor.get s none = .ok .self ∧
    SlottableDefaultDescriptor.get d s none = .ok .self :=
  ⟨rfl, rfl, rfl, rfl, rfl⟩

/-- C8: for both default-value variants, a default of the null-like value
`None` is distinguishable from no default being supplied: with
`default=None` a never-written read returns `None` without failing, while
with no default argument (the `NO_DEFAULT` sentinel) the same read fails;
and the sentinel is a distinct value from `None`. -/
theorem c8_none_default_distinguished (name : String) (oid : Nat) :
    DefaultDescriptor.get name .pyNone (some []) = .ok (.val .pyNone) ∧
    DefaultDescriptor.get name .noDefault (some []) = .error .notSet ∧
    SlottableDefaultDescriptor.get .pyNone slotInit (some oid)
      = .ok (.val .pyNone) ∧
    SlottableDefaultDescriptor.get .noDefault slotInit (some oid)
      = .error .notSet ∧
    PyVal.pyNone ≠ PyVal.noDefault := by
  refine ⟨?_, ?_, ?_, ?_, by decide⟩ <;>
    simp [DefaultDescriptor.get, BaseDataDescriptor.get,
      SlottableDefaultDescriptor.get, BaseSlottableDataDescriptor.get,
      slotInit, dget]

/-- C9: `_delete_reference` is total and a no-op when the fired weak
reference matches no entry: `_find_weak_ref_key` returns `None`, nothing is
removed, no error is raised, and the state is unchanged. -/
theorem c9_cleanup_noop_on_no_match (s : SlotState) (wref : Nat)
    (h : ∀ p ∈ s._references, p.2.reference ≠ wref) :
    BaseSlottableDataDescriptor.findWeakRefKey s._references wref = none ∧
    BaseSlottableDataDescriptor.deleteReference s wref = s := by
  have hf := findWeakRefKey_none s._references wref h
  refine ⟨hf, ?_⟩
  unfold BaseSlottableDataDescriptor.deleteReference
  rw [hf]

theorem c9_cleanup_noop_on_no_match_witness :
    (∀ p ∈ sampleSlotState._references, p.2.reference ≠ 5) ∧
    (BaseSlottableDataDescriptor.findWeakRefKey sampleSlotState._references 5
      = none ∧
    BaseSlottableDataDescriptor.deleteReference sampleSlotState 5
      = sampleSlotState) :=
  ⟨by decide, c9_cleanup_noop_on_no_match sampleSlotState 5 (by decide)⟩

/-- C10: read is side-effect free for every variant: any run consisting
only of `__get__` calls leaves both the dict-based world (the owning
objects' field storage) and the slottable hook state (`_references`,
`nextRef`) exactly unchanged. -/
theorem c10_get_is_pure (name : String) (w : World) (s : SlotState)
    (dops : List DictOp) (ops : List SlotOp)
    (hd : ∀ op ∈ dops, DictOp.isGet op = true)
    (hs : ∀ op ∈ ops, SlotOp.isGet op = true) :
    dictRun name w dops = w ∧ slotRun s ops = s := by
  constructor
  · induction dops generalizing w with
    | nil => rfl
    | cons op rest ih =>
      cases op with
      | setOp o u => simpa [DictOp.isGet] using hd _ (List.mem_cons_self _ _)
      | getOp i =>
        exact ih w (fun q hq => hd q (List.mem_cons_of_mem _ hq))
  · induction ops generalizing s with
    | nil => rfl
    | cons op rest ih =>
      cases op with
      | setOp o u => simpa [SlotOp.isGet] using hs _ (List.mem_cons_self _ _)
      | getOp i =>
        exact ih s (fun q hq => hs q (List.mem_cons_of_mem _ hq))
      | cleanupOp u => simpa [SlotOp.isGet] using hs _ (List.mem_cons_self _ _)

def sampleGetDictOps : List DictOp := [.getOp (some 1), .getOp none, .getOp (some 2)]

def sampleGetSlotOps : List SlotOp := [.getOp (some 1), .getOp none]

theorem c10_get_is_pure_witness :
    (∀ op ∈ sampleGetDictOps, DictOp.isGet op = true) ∧
    (∀ op ∈ sampleGetSlotOps, SlotOp.isGet op = true) ∧
    (dictRun "bar" [(1, [("bar", PyVal.pyInt 3)])] sampleGetDictOps
      = [(1, [("bar", PyVal.pyInt 3)])] ∧
    slotRun sampleSlotState sampleGetSlotOps = sampleSlotState) :=
  ⟨by decide, by decide,
    c10_get_is_pure "bar" [(1, [("bar", PyVal.pyInt 3)])] sampleSlotState
      sampleGetDictOps sampleGetSlotOps (by decide) (by decide)⟩
